import Mathlib

/-!
Verification of the `un7z` batch archive extractor (`src/main.rs`) against its
natural-language specification.

Strings are embedded as `List Char` (Rust `str` ends_with / strip_suffix are
byte-wise comparisons, which agree with character-list comparison for valid
UTF-8).  Filesystem paths are embedded as lists of path components.  The
filesystem and the pseudo-terminal subprocess layer are abstracted by explicit
inputs (directory contents, child exit status) and an explicit trace of the
filesystem actions the orchestrator performs, in order.
-/

namespace Un7z

/-- Equality of `Except` results is decidable; used to evaluate the embedded
functions on concrete inputs. -/
instance {ε α : Type} [DecidableEq ε] [DecidableEq α] : DecidableEq (Except ε α)
  | Except.error e, Except.error f =>
    if h : e = f then Decidable.isTrue (by rw [h])
    else Decidable.isFalse (by intro hc; cases hc; exact h rfl)
  | Except.error _, Except.ok _ => Decidable.isFalse (by intro hc; cases hc)
  | Except.ok _, Except.error _ => Decidable.isFalse (by intro hc; cases hc)
  | Except.ok a, Except.ok b =>
    if h : a = b then Decidable.isTrue (by rw [h])
    else Decidable.isFalse (by intro hc; cases hc; exact h rfl)

/-- Path embedded as its list of components: `a/b/c.txt` is `[a, b, c.txt]`. -/
abbrev FsPath := List (List Char)

/-- Rendering of a component path to the string Rust would pass to `Command::arg`. -/
def renderPath (p : FsPath) : List Char :=
  (p.intersperse "/".toList).flatten

/-- Rust `Path::parent`: `None` for an empty path, otherwise the path minus its
last component (embedding of the component-level behaviour used by the code). -/
def parentDir (p : FsPath) : Option FsPath :=
  match p with
  | [] => none
  | _ => some p.dropLast

/-- Rust `str::strip_suffix`: `some` of the text before `suffix` when `suffix`
ends `s`, else `none`. -/
def stripSuffix (s suffix : List Char) : Option (List Char) :=
  if suffix <:+ s then some (s.take (s.length - suffix.length)) else none

/-- The closed set of archive kinds (`enum ArchiveType`, main.rs lines 42-48). -/
inductive ArchiveType where
  | SevenZip
  | Zip
  | Rar
  | TarGz
deriving DecidableEq, Repr

/-- `Archive::parse_type` (main.rs lines 70-90): match the six recognized
suffixes in source order, first match wins, returning the kind and the
filename with the suffix stripped; any other filename yields `none`. -/
def parse_type (filename : List Char) : Option (ArchiveType × List Char) :=
  if ".7z.001".toList <:+ filename then
    (stripSuffix filename ".7z.001".toList).map fun base => (ArchiveType.SevenZip, base)
  else if ".zip.001".toList <:+ filename then
    (stripSuffix filename ".zip.001".toList).map fun base => (ArchiveType.Zip, base)
  else
    match stripSuffix filename ".tar.gz".toList with
    | some name => some (ArchiveType.TarGz, name)
    | none =>
      match stripSuffix filename ".tgz".toList with
      | some name => some (ArchiveType.TarGz, name)
      | none =>
        if ".part01.rar".toList <:+ filename then
          (stripSuffix filename ".part01.rar".toList).map fun base => (ArchiveType.Rar, base)
        else if ".part001.rar".toList <:+ filename then
          (stripSuffix filename ".part001.rar".toList).map fun base => (ArchiveType.Rar, base)
        else
          none

/-- The six recognized suffixes, in the order `parse_type` checks them. -/
def recognizedSuffixes : List (List Char) :=
  [".7z.001".toList, ".zip.001".toList, ".tar.gz".toList, ".tgz".toList,
   ".part01.rar".toList, ".part001.rar".toList]

/-- `struct Archive` (main.rs lines 36-40). -/
structure Archive where
  path : FsPath
  base_name : List Char
  archive_type : ArchiveType
deriving DecidableEq, Repr

/-- `Archive::new` (main.rs lines 51-60): take the path's file name (its last
component) and classify it; fail when there is no file name or no match. -/
def Archive.new (path : FsPath) : Option Archive :=
  match path.getLast? with
  | none => none
  | some file_name =>
    match parse_type file_name with
    | none => none
    | some (archive_type, base_name) =>
      some { path := path, base_name := base_name, archive_type := archive_type }

/-- `Archive::extract_dir` (main.rs lines 63-68): the archive's parent directory
joined with the base name; `none` embeds the `Err("Archive has no parent")` case. -/
def Archive.extract_dir (a : Archive) : Option FsPath :=
  (parentDir a.path).map fun p => p ++ [a.base_name]

/-- An external command line: program plus argument vector (`std::process::Command`
restricted to what the code observes: program name and ordered arguments). -/
structure Cmd where
  program : List Char
  args : List (List Char)
deriving DecidableEq, Repr

/-- `Archive::extract_command` (main.rs lines 92-148): build the external
command for the archive's kind, the mode (`test`) and the optional password. -/
def Archive.extract_command (a : Archive) (test : Bool) (password : Option (List Char)) : Cmd :=
  match a.archive_type with
  | ArchiveType.SevenZip | ArchiveType.Zip =>
    let args0 := if test then ["t".toList] else ["x".toList, "-y".toList]
    let args1 := args0 ++ [renderPath a.path]
    let args2 :=
      match password with
      | some pwd => args1 ++ ["-p".toList ++ pwd]
      | none => args1
    { program := "7zz".toList, args := args2 ++ ["-o".toList ++ a.base_name] }
  | ArchiveType.Rar =>
    let args0 := if test then ["t".toList] else ["x".toList, "-y".toList]
    let args1 := args0 ++ [renderPath a.path]
    let args2 :=
      match password with
      | some pwd => args1 ++ ["-p".toList, pwd]
      | none => args1 ++ ["-p-".toList]
    let args3 := if test then args2 else args2 ++ [a.base_name]
    { program := "unrar".toList, args := args3 }
  | ArchiveType.TarGz =>
    if test then
      { program := "gzip".toList, args := ["-t".toList, renderPath a.path] }
    else
      { program := "tar".toList,
        args := ["xzf".toList, renderPath a.path, "-C".toList, a.base_name] }

/-- Errors of the pseudo-terminal relay, per its two failure sites: the
spawn-time failure (`Fork::from_ptmx().context("Failed to create PTY")`,
main.rs line 267, and an exec failure in the forked path, line 296-297) versus
the external tool running and exiting non-zero (line 324). -/
inductive PtyError where
  | spawnFailure
  | commandFailure (exit_code : Int)
deriving DecidableEq, Repr

/-- What the operating system does with one relay invocation: either the
spawn fails before the external tool runs, or the child runs to completion
and exits with a status code.  This abstracts the fork/exec/read-loop of
`run_with_pty`; the relay's result depends only on this. -/
inductive SpawnBehavior where
  | spawnFail
  | exits (exit_code : Int)
deriving DecidableEq, Repr

/-- `run_with_pty` as observed by its caller (main.rs lines 251-326): a spawn
failure surfaces as the distinct spawn error; otherwise the parent waits for
the child and maps exit status 0 to `ok`, any other status to a command
failure carrying that status (lines 319-325). -/
def run_with_pty (behavior : SpawnBehavior) : Except PtyError Unit :=
  match behavior with
  | SpawnBehavior.spawnFail => Except.error PtyError.spawnFailure
  | SpawnBehavior.exits exit_code =>
    if exit_code = 0 then Except.ok ()
    else Except.error (PtyError.commandFailure exit_code)

/-- One entry met while walking the target directory: whether it is a regular
file, and its size in bytes (what lines 344-347 inspect via `file_type` and
`metadata.len`). -/
structure FsEntry where
  is_file : Bool
  size : Nat
deriving DecidableEq, Repr

/-- The `has_valid_files` check of `extract_archive` (main.rs lines 341-347):
some walked entry is a regular file of non-zero size. -/
def has_valid_files (entries : List FsEntry) : Bool :=
  entries.any fun e => e.is_file && decide (0 < e.size)

/-- A filesystem write or subprocess invocation the orchestrator performs. -/
inductive FsAction where
  | removeDirAll (dir : FsPath)
  | createDirAll (dir : FsPath)
  | runCommand (cmd : Cmd)
deriving DecidableEq, Repr

/-- Errors `extract_archive` can return: the `extract_dir()` failure
("Archive has no parent") or a relay error propagated from `run_with_pty`. -/
inductive ExtractError where
  | noParent
  | relay (e : PtyError)
deriving DecidableEq, Repr

/-- Whether the skip branch of `extract_archive` fires (main.rs line 339 and
349): the force flag is unset, the target directory exists (its contents are
`some entries`) and it contains a valid file. -/
def skips (force : Bool) (dirState : Option (List FsEntry)) : Bool :=
  match force, dirState with
  | false, some entries => has_valid_files entries
  | _, _ => false

/-- `extract_archive` (main.rs lines 328-424) over an abstract filesystem.
Inputs beyond the code's own arguments describe what the environment answers:
`dirState` is `none` when the target directory does not exist at entry, else
the entries walked inside it; `behavior` is the OS behaviour of the one relay
invocation; `dirExistsAfterFail` is what `extract_dir.exists()` returns at the
failure-cleanup check (line 417).  Returns the function's `Result` paired with
the ordered trace of filesystem writes and the subprocess invocation. -/
def extract_archive (a : Archive) (test : Bool) (password : Option (List Char))
    (force : Bool) (dirState : Option (List FsEntry)) (behavior : SpawnBehavior)
    (dirExistsAfterFail : Bool) : Except ExtractError Unit × List FsAction :=
  match a.extract_dir with
  | none => (Except.error ExtractError.noParent, [])
  | some extract_dir =>
    let rest : List FsAction → Except ExtractError Unit × List FsAction := fun acts0 =>
      let acts1 := if !test && decide (a.archive_type = ArchiveType.TarGz)
        then acts0 ++ [FsAction.createDirAll extract_dir] else acts0
      let acts2 := acts1 ++ [FsAction.runCommand (a.extract_command test password)]
      match run_with_pty behavior with
      | Except.ok _ => (Except.ok (), acts2)
      | Except.error e =>
        if dirExistsAfterFail then
          (Except.error (ExtractError.relay e), acts2 ++ [FsAction.removeDirAll extract_dir])
        else
          (Except.error (ExtractError.relay e), acts2)
    match force, dirState with
    | false, some entries =>
      if has_valid_files entries then (Except.ok (), [])
      else rest [FsAction.removeDirAll extract_dir]
    | _, _ => rest []

/-- The spec-level per-archive outcome.  `extract_archive` itself returns only
`Result<()>`; the outcome is what the run observably was: `Skipped` when the
early-return skip branch fires (the code prints "skipping", line 355),
otherwise `Success` or `Failed` per the printed result (lines 398-414). -/
inductive ExtractionOutcome where
  | Success
  | Skipped
  | Failed (e : ExtractError)
deriving DecidableEq, Repr

/-- The outcome one `extract_archive` run observably produces, as a function of
the same abstract environment. -/
def observed_outcome (a : Archive) (force : Bool) (dirState : Option (List FsEntry))
    (behavior : SpawnBehavior) : ExtractionOutcome :=
  match a.extract_dir with
  | none => ExtractionOutcome.Failed ExtractError.noParent
  | some _ =>
    if skips force dirState then ExtractionOutcome.Skipped
    else
      match run_with_pty behavior with
      | Except.ok _ => ExtractionOutcome.Success
      | Except.error e => ExtractionOutcome.Failed (ExtractError.relay e)

/-- The end-of-run counters of `main` (main.rs lines 482-484):
`success`, `failed`, and the `skipped` binding. -/
structure Tally where
  success : Nat
  failed : Nat
  skipped : Nat
deriving DecidableEq, Repr

/-- One step of `main`'s per-archive match (main.rs lines 489-507): an `Ok`
result increments `success`, an `Err` increments `failed`.  Nothing in the
loop touches `skipped`, which `main` binds immutably to 0 (line 484). -/
def fold_outcome (t : Tally) (r : Except ExtractError Unit) : Tally :=
  match r with
  | Except.ok _ => { t with success := t.success + 1 }
  | Except.error _ => { t with failed := t.failed + 1 }

/-- The tally `main` prints in its summary (main.rs lines 511-522), as a fold
of the per-archive `Result`s over the initial counters. -/
def main_tally (results : List (Except ExtractError Unit)) : Tally :=
  results.foldl fold_outcome { success := 0, failed := 0, skipped := 0 }

/-- Count of a given spec-level outcome in a run. -/
def count_outcome (outcomes : List ExtractionOutcome) (o : ExtractionOutcome) : Nat :=
  (outcomes.filter fun x => x = o).length

/-- Rust `str::trim`: drop whitespace from both ends (the code only feeds it
ASCII, where `Char.isWhitespace` agrees with Rust's `char::is_whitespace`). -/
def trim (s : List Char) : List Char :=
  ((s.dropWhile Char.isWhitespace).reverse.dropWhile Char.isWhitespace).reverse

/-- Rust `usize::from_str` as used by `parse_selection`: an optional leading
`+` sign followed by a non-empty run of decimal digits; anything else is a
parse error (overflow is not modelled — the claims involve small numbers). -/
def parseUsize (s : List Char) : Option Nat :=
  let digits := if s.head? = some '+' then s.tail else s
  if digits.isEmpty then none
  else if digits.all Char.isDigit then
    some (digits.foldl (fun n ch => n * 10 + (ch.toNat - 48)) 0)
  else none

/-- The body of `parse_selection`'s loop for one comma-separated part
(main.rs lines 223-242): trim it; a part containing `-` is treated as a range
when it splits into exactly two pieces (other shapes are silently ignored),
each piece must parse, and the in-range values `i` with `0 < i ≤ max`
contribute `i - 1`; a part without `-` must parse as a number, contributing
`num - 1` when `0 < num ≤ max` and nothing otherwise. -/
def parse_part (part : List Char) (max : Nat) : Except (List Char) (List Nat) :=
  let part := trim part
  if part.contains '-' then
    match part.splitOn '-' with
    | [startStr, endStr] =>
      match parseUsize startStr with
      | none => Except.error "Invalid range start".toList
      | some start =>
        match parseUsize endStr with
        | none => Except.error "Invalid range end".toList
        | some stop =>
          Except.ok ((List.range' start (stop + 1 - start)).filterMap
            fun i => if 0 < i ∧ i ≤ max then some (i - 1) else none)
    | _ => Except.ok []
  else
    match parseUsize part with
    | none => Except.error "Invalid number".toList
    | some num => Except.ok (if 0 < num ∧ num ≤ max then [num - 1] else [])

/-- The loop of `parse_selection` over the comma-separated parts: results are
pushed in order; the first failing part aborts the whole parse. -/
def process_parts (parts : List (List Char)) (max : Nat) : Except (List Char) (List Nat) :=
  match parts with
  | [] => Except.ok []
  | p :: restParts =>
    match parse_part p max with
    | Except.error e => Except.error e
    | Except.ok xs =>
      match process_parts restParts max with
      | Except.error e => Except.error e
      | Except.ok ys => Except.ok (xs ++ ys)

/-- `Vec::dedup` (main.rs line 245): remove consecutive duplicates. -/
def dedupAdj : List Nat → List Nat
  | [] => []
  | [a] => [a]
  | a :: b :: restL => if a = b then dedupAdj (b :: restL) else a :: dedupAdj (b :: restL)

/-- `parse_selection` (main.rs lines 220-247): split the input on commas,
process each part, then sort ascending (`Vec::sort`, embedded as insertion
sort — on `Nat` every correct sort yields the same list) and drop consecutive
duplicates (`Vec::dedup`). -/
def parse_selection (input : List Char) (max : Nat) : Except (List Char) (List Nat) :=
  match process_parts (input.splitOn ',') max with
  | Except.error e => Except.error e
  | Except.ok selected =>
    Except.ok (dedupAdj (List.insertionSort (fun a b => a ≤ b) selected))

/-! ## Helper lemmas -/

lemma suffix_of_suffix_of_length_le {l₁ l₂ l₃ : List Char} (h₁ : l₁ <:+ l₃) (h₂ : l₂ <:+ l₃)
    (h : l₁.length ≤ l₂.length) : l₁ <:+ l₂ := by
  rw [← List.reverse_prefix] at h₁ h₂ ⊢
  exact List.prefix_of_prefix_length_le h₁ h₂ (by simpa)

lemma not_suffix_append {σ τ : List Char} (h1 : ¬ τ <:+ σ) (h2 : ¬ σ <:+ τ) (b : List Char) :
    ¬ τ <:+ b ++ σ := by
  intro h
  rcases Nat.le_total τ.length σ.length with hle | hle
  · exact h1 (suffix_of_suffix_of_length_le h (List.suffix_append b σ) hle)
  · exact h2 (suffix_of_suffix_of_length_le (List.suffix_append b σ) h hle)

lemma stripSuffix_append (b σ : List Char) : stripSuffix (b ++ σ) σ = some b := by
  rw [stripSuffix, if_pos (List.suffix_append b σ)]
  rw [List.length_append, Nat.add_sub_cancel, List.take_left]

lemma stripSuffix_eq_none {s σ : List Char} (h : ¬ σ <:+ s) : stripSuffix s σ = none := by
  rw [stripSuffix, if_neg h]

lemma parse_type_7z (b : List Char) :
    parse_type (b ++ ".7z.001".toList) = some (ArchiveType.SevenZip, b) := by
  rw [parse_type, if_pos (List.suffix_append b _), stripSuffix_append]
  rfl

lemma parse_type_zip (b : List Char) :
    parse_type (b ++ ".zip.001".toList) = some (ArchiveType.Zip, b) := by
  rw [parse_type, if_neg (not_suffix_append (by decide) (by decide) b),
    if_pos (List.suffix_append b _), stripSuffix_append]
  rfl

lemma parse_type_targz (b : List Char) :
    parse_type (b ++ ".tar.gz".toList) = some (ArchiveType.TarGz, b) := by
  rw [parse_type, if_neg (not_suffix_append (by decide) (by decide) b),
    if_neg (not_suffix_append (by decide) (by decide) b), stripSuffix_append]

lemma parse_type_tgz (b : List Char) :
    parse_type (b ++ ".tgz".toList) = some (ArchiveType.TarGz, b) := by
  rw [parse_type, if_neg (not_suffix_append (by decide) (by decide) b),
    if_neg (not_suffix_append (by decide) (by decide) b),
    stripSuffix_eq_none (not_suffix_append (by decide) (by decide) b), stripSuffix_append]

lemma parse_type_part01 (b : List Char) :
    parse_type (b ++ ".part01.rar".toList) = some (ArchiveType.Rar, b) := by
  rw [parse_type, if_neg (not_suffix_append (by decide) (by decide) b),
    if_neg (not_suffix_append (by decide) (by decide) b),
    stripSuffix_eq_none (not_suffix_append (by decide) (by decide) b),
    stripSuffix_eq_none (not_suffix_append (by decide) (by decide) b),
    if_pos (List.suffix_append b _), stripSuffix_append]
  rfl

lemma parse_type_part001 (b : List Char) :
    parse_type (b ++ ".part001.rar".toList) = some (ArchiveType.Rar, b) := by
  rw [parse_type, if_neg (not_suffix_append (by decide) (by decide) b),
    if_neg (not_suffix_append (by decide) (by decide) b),
    stripSuffix_eq_none (not_suffix_append (by decide) (by decide) b),
    stripSuffix_eq_none (not_suffix_append (by decide) (by decide) b),
    if_neg (not_suffix_append (by decide) (by decide) b),
    if_pos (List.suffix_append b _), stripSuffix_append]
  rfl

lemma parse_type_eq_none {s : List Char} (h : ∀ σ ∈ recognizedSuffixes, ¬ σ <:+ s) :
    parse_type s = none := by
  have h1 : ¬ ".7z.001".toList <:+ s := h _ (by simp [recognizedSuffixes])
  have h2 : ¬ ".zip.001".toList <:+ s := h _ (by simp [recognizedSuffixes])
  have h3 : ¬ ".tar.gz".toList <:+ s := h _ (by simp [recognizedSuffixes])
  have h4 : ¬ ".tgz".toList <:+ s := h _ (by simp [recognizedSuffixes])
  have h5 : ¬ ".part01.rar".toList <:+ s := h _ (by simp [recognizedSuffixes])
  have h6 : ¬ ".part001.rar".toList <:+ s := h _ (by simp [recognizedSuffixes])
  rw [parse_type, if_neg h1, if_neg h2, stripSuffix_eq_none h3, stripSuffix_eq_none h4,
    if_neg h5, if_neg h6]

lemma parentDir_concat (p : FsPath) (f : List Char) : parentDir (p ++ [f]) = some p := by
  cases p with
  | nil => rfl
  | cons x xs =>
    show some (((x :: xs) ++ [f]).dropLast) = some (x :: xs)
    rw [List.dropLast_concat]

lemma archive_new_concat {p : FsPath} {fname : List Char} {a : Archive}
    (h : Archive.new (p ++ [fname]) = some a) :
    a.path = p ++ [fname] ∧ parse_type fname = some (a.archive_type, a.base_name) := by
  rw [Archive.new, List.getLast?_concat] at h
  cases hp : parse_type fname with
  | none => simp [hp] at h
  | some kb =>
    obtain ⟨t, bn⟩ := kb
    simp only [hp] at h
    injection h with h2
    subst h2
    exact ⟨rfl, rfl⟩

/-! ## C1 and C8: classifier and target directory -/

/-- C1: classification checks the six suffixes `.7z.001`, `.zip.001`, `.tar.gz`,
`.tgz`, `.part01.rar`, `.part001.rar`, mapping each match to the corresponding
kind paired with the filename with the suffix removed (no two of the suffixes
can end the same filename, so the fixed checking order returns the unique
match), and returns `none` — no match, not an error — for every filename not
ending in one of the six suffixes; being a total function, classification is
total and deterministic. -/
theorem classification_by_suffix :
    (∀ b, parse_type (b ++ ".7z.001".toList) = some (ArchiveType.SevenZip, b)) ∧
    (∀ b, parse_type (b ++ ".zip.001".toList) = some (ArchiveType.Zip, b)) ∧
    (∀ b, parse_type (b ++ ".tar.gz".toList) = some (ArchiveType.TarGz, b)) ∧
    (∀ b, parse_type (b ++ ".tgz".toList) = some (ArchiveType.TarGz, b)) ∧
    (∀ b, parse_type (b ++ ".part01.rar".toList) = some (ArchiveType.Rar, b)) ∧
    (∀ b, parse_type (b ++ ".part001.rar".toList) = some (ArchiveType.Rar, b)) ∧
    (∀ s, (∀ σ ∈ recognizedSuffixes, ¬ σ <:+ s) → parse_type s = none) :=
  ⟨parse_type_7z, parse_type_zip, parse_type_targz, parse_type_tgz,
   parse_type_part01, parse_type_part001, fun _ h => parse_type_eq_none h⟩

/-- Witness for C1: `other.txt` matches no suffix; `archive.7z.001` classifies
as `SevenZip` with base name `archive`. -/
theorem classification_by_suffix_witness :
    parse_type "other.txt".toList = none ∧
    parse_type "archive.7z.001".toList = some (ArchiveType.SevenZip, "archive".toList) := by
  constructor
  · exact classification_by_suffix.2.2.2.2.2.2 "other.txt".toList (by decide)
  · have h := classification_by_suffix.1 "archive".toList
    have e : "archive".toList ++ ".7z.001".toList = "archive.7z.001".toList := by decide
    rw [e] at h
    exact h

/-- C8: for every classified archive, the target extraction directory is the
derived base name joined to the archive's parent directory — a sibling of the
archive file, independent of the process's working directory. -/
theorem extract_dir_is_sibling (p : FsPath) (fname : List Char) (a : Archive)
    (h : Archive.new (p ++ [fname]) = some a) :
    a.path = p ++ [fname] ∧ a.extract_dir = some (p ++ [a.base_name]) := by
  obtain ⟨hpath, _⟩ := archive_new_concat h
  refine ⟨hpath, ?_⟩
  rw [Archive.extract_dir, hpath, parentDir_concat]
  rfl

/-- Witness for C8: `a/b/c/archive.7z.001` yields base name `archive` and
target directory `a/b/c/archive`. -/
theorem extract_dir_is_sibling_witness :
    (⟨["a".toList, "b".toList, "c".toList, "archive.7z.001".toList],
      "archive".toList, ArchiveType.SevenZip⟩ : Archive).extract_dir =
      some (["a".toList, "b".toList, "c".toList] ++ ["archive".toList]) :=
  (extract_dir_is_sibling ["a".toList, "b".toList, "c".toList] ("archive.7z.001".toList)
    _ (by decide)).2

/-! ## Orchestrator lemmas -/

/-- Normal form of `extract_archive` when the skip branch does not fire: the
repair deletion (when the directory existed without valid files), then the
TarGz pre-creation, then the single subprocess invocation, then the failure
cleanup, with the result determined by the relay alone. -/
lemma extract_archive_eq (a : Archive) (test : Bool) (pwd : Option (List Char))
    (force : Bool) (dirState : Option (List FsEntry)) (behavior : SpawnBehavior)
    (dEAF : Bool) (d : FsPath) (hd : a.extract_dir = some d)
    (hns : skips force dirState = false) :
    extract_archive a test pwd force dirState behavior dEAF =
      ((match run_with_pty behavior with
        | Except.ok _ => Except.ok ()
        | Except.error e => Except.error (ExtractError.relay e)),
       (if force = false ∧ dirState.isSome then [FsAction.removeDirAll d] else []) ++
       (if !test && decide (a.archive_type = ArchiveType.TarGz)
        then [FsAction.createDirAll d] else []) ++
       [FsAction.runCommand (a.extract_command test pwd)] ++
       (match run_with_pty behavior with
        | Except.ok _ => []
        | Except.error _ => if dEAF then [FsAction.removeDirAll d] else [])) := by
  rw [extract_archive, hd]
  cases force <;> cases dirState <;>
    cases hb : run_with_pty behavior <;> cases dEAF <;>
      simp_all [skips] <;> split <;> simp

/-- When the skip condition is false the observable outcome is never Skipped. -/
lemma observed_outcome_not_skipped (a : Archive) (force : Bool)
    (dirState : Option (List FsEntry)) (behavior : SpawnBehavior)
    (hns : skips force dirState = false) :
    observed_outcome a force dirState behavior ≠ ExtractionOutcome.Skipped := by
  rw [observed_outcome]
  cases hd : a.extract_dir with
  | none => intro hc; cases hc
  | some d =>
    rw [hns]
    cases run_with_pty behavior with
    | ok u => intro hc; cases hc
    | error e => intro hc; cases hc

/-- Repair trace: when the directory exists without valid files and force is
unset, the trace starts with the recursive deletion of the target directory
and the external command is invoked afterwards. -/
lemma repair_trace (a : Archive) (test : Bool) (pwd : Option (List Char))
    (entries : List FsEntry) (behavior : SpawnBehavior) (dEAF : Bool) (d : FsPath)
    (hd : a.extract_dir = some d) (hv : has_valid_files entries = false) :
    ∃ pre post, (extract_archive a test pwd false (some entries) behavior dEAF).2 =
      FsAction.removeDirAll d ::
        (pre ++ FsAction.runCommand (a.extract_command test pwd) :: post) := by
  have hns : skips false (some entries) = false := by simp [skips, hv]
  rw [extract_archive_eq a test pwd false (some entries) behavior dEAF d hd hns]
  refine ⟨(if !test && decide (a.archive_type = ArchiveType.TarGz)
      then [FsAction.createDirAll d] else []),
    (match run_with_pty behavior with
      | Except.ok _ => []
      | Except.error _ => if dEAF then [FsAction.removeDirAll d] else []), ?_⟩
  simp

/-! ## C2, C3, C4: skip / repair / failure-cleanup policy -/

/-- C2: with the force flag unset, when the target directory exists and
contains at least one regular file of non-zero size, the run reports Skipped
and performs no filesystem action at all; in particular a second run after a
first run that left a non-empty target directory is exactly such a run, so it
is Skipped and leaves the filesystem unchanged. -/
theorem skip_when_directory_has_valid_files (a : Archive) (test : Bool)
    (pwd : Option (List Char)) (entries : List FsEntry) (behavior : SpawnBehavior)
    (dEAF : Bool) (d : FsPath) (hd : a.extract_dir = some d)
    (hv : has_valid_files entries = true) :
    observed_outcome a false (some entries) behavior = ExtractionOutcome.Skipped ∧
    extract_archive a test pwd false (some entries) behavior dEAF = (Except.ok (), []) := by
  constructor
  · rw [observed_outcome, hd]
    simp [skips, hv]
  · rw [extract_archive, hd]
    simp [hv]

/-- Witness for C2 at a concrete archive and directory state. -/
theorem skip_when_directory_has_valid_files_witness :
    observed_outcome ⟨["d".toList, "foo.tar.gz".toList], "foo".toList, ArchiveType.TarGz⟩
      false (some [⟨true, 5⟩]) (SpawnBehavior.exits 0) = ExtractionOutcome.Skipped ∧
    extract_archive ⟨["d".toList, "foo.tar.gz".toList], "foo".toList, ArchiveType.TarGz⟩
      false none false (some [⟨true, 5⟩]) (SpawnBehavior.exits 0) true = (Except.ok (), []) :=
  skip_when_directory_has_valid_files _ false none [⟨true, 5⟩] (SpawnBehavior.exits 0) true
    ["d".toList, "foo".toList] (by decide) (by decide)

/-- C3: with the force flag unset, when the target directory exists but
contains no regular file of non-zero size, the run is not Skipped: its first
filesystem action recursively deletes the target directory, and the external
extraction command is invoked afterwards. -/
theorem repair_deletes_then_reextracts (a : Archive) (test : Bool) (pwd : Option (List Char))
    (entries : List FsEntry) (behavior : SpawnBehavior) (dEAF : Bool) (d : FsPath)
    (hd : a.extract_dir = some d) (hv : has_valid_files entries = false) :
    observed_outcome a false (some entries) behavior ≠ ExtractionOutcome.Skipped ∧
    ∃ pre post, (extract_archive a test pwd false (some entries) behavior dEAF).2 =
      FsAction.removeDirAll d ::
        (pre ++ FsAction.runCommand (a.extract_command test pwd) :: post) := by
  have hns : skips false (some entries) = false := by simp [skips, hv]
  exact ⟨observed_outcome_not_skipped a false (some entries) behavior hns,
    repair_trace a test pwd entries behavior dEAF d hd hv⟩

/-- Witness for C3 at a concrete archive whose directory holds only an empty file. -/
theorem repair_deletes_then_reextracts_witness :
    observed_outcome ⟨["d".toList, "foo.tar.gz".toList], "foo".toList, ArchiveType.TarGz⟩
      false (some [⟨true, 0⟩]) (SpawnBehavior.exits 0) ≠ ExtractionOutcome.Skipped ∧
    ∃ pre post,
      (extract_archive ⟨["d".toList, "foo.tar.gz".toList], "foo".toList, ArchiveType.TarGz⟩
        false none false (some [⟨true, 0⟩]) (SpawnBehavior.exits 0) true).2 =
      FsAction.removeDirAll ["d".toList, "foo".toList] ::
        (pre ++ FsAction.runCommand
          (Archive.extract_command ⟨["d".toList, "foo.tar.gz".toList], "foo".toList,
            ArchiveType.TarGz⟩ false none) :: post) :=
  repair_deletes_then_reextracts _ false none [⟨true, 0⟩] (SpawnBehavior.exits 0) true
    ["d".toList, "foo".toList] (by decide) (by decide)

/-- C4: whenever the relay returns an error and the run was not skipped, the
outcome is Failed carrying that error; the target directory, when it exists at
the cleanup check, is recursively deleted as the final action before the
Failed result is returned, and the Failed result is returned regardless. -/
theorem failed_run_cleans_target_dir (a : Archive) (test : Bool) (pwd : Option (List Char))
    (force : Bool) (dirState : Option (List FsEntry)) (behavior : SpawnBehavior)
    (d : FsPath) (e : PtyError) (hd : a.extract_dir = some d)
    (hns : skips force dirState = false) (he : run_with_pty behavior = Except.error e) :
    observed_outcome a force dirState behavior =
      ExtractionOutcome.Failed (ExtractError.relay e) ∧
    (extract_archive a test pwd force dirState behavior true).1 =
      Except.error (ExtractError.relay e) ∧
    (∃ acts, (extract_archive a test pwd force dirState behavior true).2 =
      acts ++ [FsAction.removeDirAll d]) ∧
    (extract_archive a test pwd force dirState behavior false).1 =
      Except.error (ExtractError.relay e) := by
  refine ⟨?_, ?_, ?_, ?_⟩
  · rw [observed_outcome, hd]
    simp [hns, he]
  · rw [extract_archive_eq a test pwd force dirState behavior true d hd hns, he]
  · rw [extract_archive_eq a test pwd force dirState behavior true d hd hns, he]
    refine ⟨(if force = false ∧ dirState.isSome then [FsAction.removeDirAll d] else []) ++
      (if !test && decide (a.archive_type = ArchiveType.TarGz)
        then [FsAction.createDirAll d] else []) ++
      [FsAction.runCommand (a.extract_command test pwd)], ?_⟩
    simp
  · rw [extract_archive_eq a test pwd force dirState behavior false d hd hns, he]

/-- Witness for C4: a relay failure with exit code 2 on a fresh target. -/
theorem failed_run_cleans_target_dir_witness :
    observed_outcome ⟨["d".toList, "x.7z.001".toList], "x".toList, ArchiveType.SevenZip⟩
      false none (SpawnBehavior.exits 2) =
      ExtractionOutcome.Failed (ExtractError.relay (PtyError.commandFailure 2)) ∧
    (extract_archive ⟨["d".toList, "x.7z.001".toList], "x".toList, ArchiveType.SevenZip⟩
      false none false none (SpawnBehavior.exits 2) true).1 =
      Except.error (ExtractError.relay (PtyError.commandFailure 2)) ∧
    (∃ acts,
      (extract_archive ⟨["d".toList, "x.7z.001".toList], "x".toList, ArchiveType.SevenZip⟩
        false none false none (SpawnBehavior.exits 2) true).2 =
      acts ++ [FsAction.removeDirAll ["d".toList, "x".toList]]) ∧
    (extract_archive ⟨["d".toList, "x.7z.001".toList], "x".toList, ArchiveType.SevenZip⟩
      false none false none (SpawnBehavior.exits 2) false).1 =
      Except.error (ExtractError.relay (PtyError.commandFailure 2)) :=
  failed_run_cleans_target_dir _ false none false none (SpawnBehavior.exits 2)
    ["d".toList, "x".toList] (PtyError.commandFailure 2) (by decide) (by decide) (by decide)

/-! ## C5: the batch tally -/

/-- C5 (code bug): a run whose only archive is skipped — the target directory
exists with a valid file — produces one Skipped outcome and zero Success
outcomes, yet `main`'s tally counts it as a success: the summary reports
`success = 1, failed = 0, skipped = 0`, because `extract_archive` returns
`Ok(())` on the skip path and `main` never increments its immutable
`skipped` counter.  The claimed correspondence between the summary counters
and the outcomes therefore fails on the skipped count. -/
theorem skipped_outcome_tallied_as_success :
    observed_outcome ⟨["d".toList, "foo.tar.gz".toList], "foo".toList, ArchiveType.TarGz⟩
      false (some [⟨true, 5⟩]) (SpawnBehavior.exits 0) = ExtractionOutcome.Skipped ∧
    count_outcome [observed_outcome ⟨["d".toList, "foo.tar.gz".toList], "foo".toList,
      ArchiveType.TarGz⟩ false (some [⟨true, 5⟩]) (SpawnBehavior.exits 0)]
      ExtractionOutcome.Skipped = 1 ∧
    count_outcome [observed_outcome ⟨["d".toList, "foo.tar.gz".toList], "foo".toList,
      ArchiveType.TarGz⟩ false (some [⟨true, 5⟩]) (SpawnBehavior.exits 0)]
      ExtractionOutcome.Success = 0 ∧
    main_tally [(extract_archive ⟨["d".toList, "foo.tar.gz".toList], "foo".toList,
      ArchiveType.TarGz⟩ false none false (some [⟨true, 5⟩]) (SpawnBehavior.exits 0) true).1] =
      { success := 1, failed := 0, skipped := 0 } := by
  refine ⟨by decide, by decide, by decide, by decide⟩

/-! ## C6: command construction -/

lemma extract_command_7z_shape (path : FsPath) (base : List Char) (test : Bool)
    (pwd : Option (List Char)) (ty : ArchiveType)
    (hty : ty = ArchiveType.SevenZip ∨ ty = ArchiveType.Zip) :
    (Archive.extract_command ⟨path, base, ty⟩ test pwd).args =
      (if test then ["t".toList] else ["x".toList, "-y".toList]) ++ [renderPath path] ++
      (match pwd with | some p => ["-p".toList ++ p] | none => []) ++
      ["-o".toList ++ base] := by
  rcases hty with h | h <;> subst h <;> cases test <;> cases pwd <;>
    simp [Archive.extract_command]

lemma extract_command_rar_shape (path : FsPath) (base : List Char) (test : Bool)
    (pwd : Option (List Char)) :
    (Archive.extract_command ⟨path, base, ArchiveType.Rar⟩ test pwd).args =
      (if test then ["t".toList] else ["x".toList, "-y".toList]) ++ [renderPath path] ++
      (match pwd with | some p => ["-p".toList, p] | none => ["-p-".toList]) ++
      (if test then [] else [base]) := by
  cases test <;> cases pwd <;> simp [Archive.extract_command]

lemma extract_command_targz_extract (path : FsPath) (base : List Char)
    (pwd : Option (List Char)) :
    Archive.extract_command ⟨path, base, ArchiveType.TarGz⟩ false pwd =
      ⟨"tar".toList, ["xzf".toList, renderPath path, "-C".toList, base]⟩ := by
  simp [Archive.extract_command]

lemma targz_precreates_dir (a : Archive) (pwd : Option (List Char))
    (hty : a.archive_type = ArchiveType.TarGz) (force : Bool)
    (dirState : Option (List FsEntry)) (behavior : SpawnBehavior) (dEAF : Bool)
    (d : FsPath) (hd : a.extract_dir = some d) (hns : skips force dirState = false) :
    ∃ acts0 acts1, (extract_archive a false pwd force dirState behavior dEAF).2 =
      acts0 ++ FsAction.createDirAll d ::
        FsAction.runCommand (a.extract_command false pwd) :: acts1 := by
  rw [extract_archive_eq a false pwd force dirState behavior dEAF d hd hns]
  refine ⟨(if force = false ∧ dirState.isSome then [FsAction.removeDirAll d] else []),
    (match run_with_pty behavior with
      | Except.ok _ => []
      | Except.error _ => if dEAF then [FsAction.removeDirAll d] else []), ?_⟩
  simp [hty]

/-- C6: for SevenZip/Zip the fused `-o<base_name>` flag is always the last
argument and no password flag is emitted without a password; for Rar the
absence of a password yields the single token `-p-`, and Test mode appends no
output-directory argument; for TarGz Extract mode the command is
`tar xzf <path> -C <base_name>` — where `<base_name>`, resolved against the
archive's parent directory (the child's working directory), is exactly the
extract directory — and the orchestrator pre-creates that directory before
invoking the command. -/
theorem command_construction (a : Archive) (test : Bool) (pwd : Option (List Char)) :
    ((a.archive_type = ArchiveType.SevenZip ∨ a.archive_type = ArchiveType.Zip) →
      (a.extract_command test pwd).args.getLast? = some ("-o".toList ++ a.base_name)) ∧
    ((a.archive_type = ArchiveType.SevenZip ∨ a.archive_type = ArchiveType.Zip) →
      (a.extract_command test none).args =
        (if test then ["t".toList] else ["x".toList, "-y".toList]) ++
          [renderPath a.path, "-o".toList ++ a.base_name]) ∧
    (a.archive_type = ArchiveType.Rar →
      (a.extract_command test none).args =
        (if test then ["t".toList] else ["x".toList, "-y".toList]) ++
          [renderPath a.path, "-p-".toList] ++ (if test then [] else [a.base_name])) ∧
    (a.archive_type = ArchiveType.Rar →
      (a.extract_command true pwd).args =
        ["t".toList, renderPath a.path] ++
          (match pwd with | some p => ["-p".toList, p] | none => ["-p-".toList])) ∧
    (a.archive_type = ArchiveType.TarGz →
      a.extract_command false pwd =
        { program := "tar".toList,
          args := ["xzf".toList, renderPath a.path, "-C".toList, a.base_name] }) ∧
    (∀ p, parentDir a.path = some p → a.extract_dir = some (p ++ [a.base_name])) ∧
    (a.archive_type = ArchiveType.TarGz → ∀ force dirState behavior dEAF d,
      a.extract_dir = some d → skips force dirState = false →
      ∃ acts0 acts1, (extract_archive a false pwd force dirState behavior dEAF).2 =
        acts0 ++ FsAction.createDirAll d ::
          FsAction.runCommand (a.extract_command false pwd) :: acts1) := by
  refine ⟨?_, ?_, ?_, ?_, ?_, ?_, ?_⟩
  · intro h
    obtain ⟨path, base, ty⟩ := a
    rw [extract_command_7z_shape path base test pwd ty h, List.getLast?_concat]
  · intro h
    obtain ⟨path, base, ty⟩ := a
    rw [extract_command_7z_shape path base test none ty h]
    simp
  · intro h
    obtain ⟨path, base, ty⟩ := a
    cases h
    rw [extract_command_rar_shape path base test none]
    simp
  · intro h
    obtain ⟨path, base, ty⟩ := a
    cases h
    rw [extract_command_rar_shape path base true pwd]
    simp
  · intro h
    obtain ⟨path, base, ty⟩ := a
    cases h
    exact extract_command_targz_extract path base pwd
  · intro p hp
    rw [Archive.extract_dir, hp]
    rfl
  · intro h force dirState behavior dEAF d hd hns
    exact targz_precreates_dir a pwd h force dirState behavior dEAF d hd hns

/-- Witness for C6 at concrete SevenZip, Rar and TarGz archives. -/
theorem command_construction_witness :
    ((Archive.extract_command ⟨["d".toList, "x.7z.001".toList], "x".toList,
      ArchiveType.SevenZip⟩ false (some "pw".toList)).args.getLast? =
      some ("-o".toList ++ "x".toList)) ∧
    ((Archive.extract_command ⟨["x.part01.rar".toList], "x".toList,
      ArchiveType.Rar⟩ true none).args =
      ["t".toList, renderPath ["x.part01.rar".toList]] ++ ["-p-".toList]) ∧
    (Archive.extract_command ⟨["d".toList, "t.tgz".toList], "t".toList,
      ArchiveType.TarGz⟩ false none =
      { program := "tar".toList,
        args := ["xzf".toList, renderPath ["d".toList, "t.tgz".toList], "-C".toList,
          "t".toList] }) :=
  ⟨(command_construction ⟨["d".toList, "x.7z.001".toList], "x".toList,
      ArchiveType.SevenZip⟩ false (some "pw".toList)).1 (Or.inl rfl),
   (command_construction ⟨["x.part01.rar".toList], "x".toList,
      ArchiveType.Rar⟩ true none).2.2.2.1 rfl,
   (command_construction ⟨["d".toList, "t.tgz".toList], "t".toList,
      ArchiveType.TarGz⟩ false none).2.2.2.2.1 rfl⟩

/-! ## C7: relay status mapping -/

/-- C7: the relay returns success exactly when the child's exit status is
zero; a non-zero status yields a command-failure error carrying that status;
a spawn-time failure yields the distinct spawn-failure error. -/
theorem relay_status_mapping :
    (∀ c, run_with_pty (SpawnBehavior.exits c) = Except.ok () ↔ c = 0) ∧
    (∀ c, c ≠ 0 →
      run_with_pty (SpawnBehavior.exits c) = Except.error (PtyError.commandFailure c)) ∧
    run_with_pty SpawnBehavior.spawnFail = Except.error PtyError.spawnFailure ∧
    (∀ c, PtyError.spawnFailure ≠ PtyError.commandFailure c) := by
  refine ⟨?_, ?_, rfl, ?_⟩
  · intro c
    rw [run_with_pty]
    by_cases hc : c = 0 <;> simp [hc]
  · intro c hc
    rw [run_with_pty, if_neg hc]
  · intro c h
    cases h

/-- Witness for C7: exit status 2 maps to a command failure carrying 2. -/
theorem relay_status_mapping_witness :
    run_with_pty (SpawnBehavior.exits 2) = Except.error (PtyError.commandFailure 2) :=
  relay_status_mapping.2.1 2 (by decide)

/-! ## C9: the selection parser -/

lemma parse_part_invalid (part : List Char) (max : Nat)
    (hdash : (trim part).contains '-' = false) (hnum : parseUsize (trim part) = none) :
    parse_part part max = Except.error "Invalid number".toList := by
  have hd2 : ¬ ('-' ∈ trim part) := by simpa using hdash
  simp [parse_part, hd2, hnum]

lemma parse_part_out_of_range (part : List Char) (max num : Nat)
    (hdash : (trim part).contains '-' = false) (hnum : parseUsize (trim part) = some num)
    (ho : ¬(0 < num ∧ num ≤ max)) : parse_part part max = Except.ok [] := by
  have hd2 : ¬ ('-' ∈ trim part) := by simpa using hdash
  simp [parse_part, hd2, hnum, ho]

lemma process_parts_error (parts : List (List Char)) (max : Nat)
    (h : ∃ p ∈ parts, ∃ e, parse_part p max = Except.error e) :
    ∃ e2, process_parts parts max = Except.error e2 := by
  induction parts with
  | nil => simp at h
  | cons q restParts ih =>
    obtain ⟨p, hp, e, he⟩ := h
    rw [process_parts]
    cases hq : parse_part q max with
    | error e2 => exact ⟨e2, rfl⟩
    | ok xs =>
      rcases List.mem_cons.mp hp with rfl | hmem
      · rw [hq] at he; cases he
      · obtain ⟨e3, he3⟩ := ih ⟨p, hmem, e, he⟩
        rw [he3]
        exact ⟨e3, rfl⟩

lemma parse_part_bound (part : List Char) (max : Nat) (xs : List Nat)
    (h : parse_part part max = Except.ok xs) : ∀ i ∈ xs, i < max := by
  simp only [parse_part] at h
  split at h
  · split at h
    · cases hs : parseUsize _ with
      | none => rw [hs] at h; cases h
      | some start =>
        rw [hs] at h
        cases he : parseUsize _ with
        | none => rw [he] at h; cases h
        | some stop =>
          rw [he] at h
          injection h with h2
          subst h2
          intro i hi
          rw [List.mem_filterMap] at hi
          obtain ⟨j, _, hcond⟩ := hi
          by_cases hc : 0 < j ∧ j ≤ max
          · rw [if_pos hc] at hcond
            injection hcond with h3
            omega
          · rw [if_neg hc] at hcond
            cases hcond
    · injection h with h2
      subst h2
      intro i hi
      cases hi
  · cases hn : parseUsize _ with
    | none => rw [hn] at h; cases h
    | some num =>
      rw [hn] at h
      injection h with h2
      subst h2
      intro i hi
      by_cases hc : 0 < num ∧ num ≤ max
      · rw [if_pos hc] at hi
        rw [List.mem_singleton] at hi
        omega
      · rw [if_neg hc] at hi
        cases hi

lemma process_parts_bound (parts : List (List Char)) (max : Nat) :
    ∀ sel, process_parts parts max = Except.ok sel → ∀ i ∈ sel, i < max := by
  induction parts with
  | nil =>
    intro sel h
    rw [process_parts] at h
    injection h with h2
    subst h2
    intro i hi
    cases hi
  | cons q restParts ih =>
    intro sel h
    rw [process_parts] at h
    cases hq : parse_part q max with
    | error e => rw [hq] at h; cases h
    | ok xs =>
      rw [hq] at h
      cases hr : process_parts restParts max with
      | error e => rw [hr] at h; cases h
      | ok ys =>
        rw [hr] at h
        injection h with h2
        subst h2
        intro i hi
        rcases List.mem_append.mp hi with hx | hy
        · exact parse_part_bound q max xs hq i hx
        · exact ih ys hr i hy

lemma mem_dedupAdj : ∀ (l : List Nat) (x : Nat), x ∈ dedupAdj l → x ∈ l := by
  intro l
  induction l with
  | nil => intro x hx; cases hx
  | cons a t ih =>
    cases t with
    | nil => intro x hx; exact hx
    | cons b r =>
      intro x hx
      simp only [dedupAdj] at hx
      by_cases hab : a = b
      · rw [if_pos hab] at hx
        exact List.mem_cons_of_mem a (ih x hx)
      · rw [if_neg hab] at hx
        rcases List.mem_cons.mp hx with rfl | hx2
        · exact List.mem_cons_self _ _
        · exact List.mem_cons_of_mem a (ih x hx2)

lemma pairwise_lt_dedupAdj : ∀ (l : List Nat),
    l.Pairwise (· ≤ ·) → (dedupAdj l).Pairwise (· < ·) := by
  intro l
  induction l with
  | nil => intro _; simp [dedupAdj]
  | cons a t ih =>
    cases t with
    | nil => intro _; simp [dedupAdj]
    | cons b r =>
      intro hp
      rcases List.pairwise_cons.mp hp with ⟨hall, htail⟩
      simp only [dedupAdj]
      by_cases hab : a = b
      · rw [if_pos hab]
        exact ih htail
      · rw [if_neg hab]
        rw [List.pairwise_cons]
        refine ⟨?_, ih htail⟩
        intro x hx
        have hxmem : x ∈ b :: r := mem_dedupAdj _ x hx
        have hab2 : a ≤ b := hall b (List.mem_cons_self _ _)
        have hbx : b ≤ x := by
          rcases List.mem_cons.mp hxmem with rfl | hx2
          · exact le_refl x
          · exact (List.pairwise_cons.mp htail).1 x hx2
        exact lt_of_lt_of_le (lt_of_le_of_ne hab2 hab) hbx

lemma parse_selection_ok (input : List Char) (max : Nat) (l : List Nat)
    (h : parse_selection input max = Except.ok l) :
    l.Pairwise (· < ·) ∧ ∀ i ∈ l, i < max := by
  rw [parse_selection] at h
  cases hp : process_parts (input.splitOn ',') max with
  | error e => rw [hp] at h; cases h
  | ok sel =>
    rw [hp] at h
    injection h with h2
    subst h2
    constructor
    · exact pairwise_lt_dedupAdj _ (List.sorted_insertionSort (fun a b => a ≤ b) sel)
    · intro i hi
      have h1 : i ∈ List.insertionSort (fun a b => a ≤ b) sel := mem_dedupAdj _ i hi
      have h2 : i ∈ sel := (List.perm_insertionSort (fun a b => a ≤ b) sel).mem_iff.mp h1
      exact process_parts_bound _ max sel hp i h2

/-- C9: `"1,3,5-7"` against a pool of 10 parses to the 0-based indices
`[0, 2, 4, 5, 6]`; the out-of-range `"20"` against a pool of 10 is silently
omitted, as is any individual number outside `1..max`; a malformed individual
number anywhere in the input fails the whole parse; and every successful parse
returns indices that are strictly ascending (hence de-duplicated) and below
the pool size. -/
theorem selection_parser_spec :
    parse_selection "1,3,5-7".toList 10 = Except.ok [0, 2, 4, 5, 6] ∧
    parse_selection "20".toList 10 = Except.ok [] ∧
    (∀ part max num, (trim part).contains '-' = false →
      parseUsize (trim part) = some num → ¬(0 < num ∧ num ≤ max) →
      parse_part part max = Except.ok []) ∧
    (∀ input max part, part ∈ input.splitOn ',' → (trim part).contains '-' = false →
      parseUsize (trim part) = none → ∃ e, parse_selection input max = Except.error e) ∧
    (∀ input max l, parse_selection input max = Except.ok l →
      l.Pairwise (· < ·) ∧ ∀ i ∈ l, i < max) := by
  refine ⟨by decide, by decide, ?_, ?_, ?_⟩
  · intro part max num hdash hnum ho
    exact parse_part_out_of_range part max num hdash hnum ho
  · intro input max part hmem hdash hnum
    have herr : ∃ e, parse_part part max = Except.error e :=
      ⟨_, parse_part_invalid part max hdash hnum⟩
    obtain ⟨e2, he2⟩ := process_parts_error (input.splitOn ',') max ⟨part, hmem, herr⟩
    rw [parse_selection, he2]
    exact ⟨e2, rfl⟩
  · intro input max l h
    exact parse_selection_ok input max l h

/-- Witness for C9: the concrete parses, a malformed input failing whole, and
the ascending-order property at the concrete result. -/
theorem selection_parser_spec_witness :
    parse_selection "1,3,5-7".toList 10 = Except.ok [0, 2, 4, 5, 6] ∧
    (∃ e, parse_selection "1,x".toList 10 = Except.error e) ∧
    ([0, 2, 4, 5, 6] : List Nat).Pairwise (· < ·) := by
  refine ⟨selection_parser_spec.1, ?_, ?_⟩
  · exact selection_parser_spec.2.2.2.1 "1,x".toList 10 "x".toList
      (by decide) (by decide) (by decide)
  · exact (selection_parser_spec.2.2.2.2 "1,3,5-7".toList 10 [0, 2, 4, 5, 6]
      selection_parser_spec.1).1

/-! ## C10: a filename that is exactly a recognized suffix -/

lemma renderPath_cons_cons (x y : List Char) (l : FsPath) :
    renderPath (x :: y :: l) = x ++ "/".toList ++ renderPath (y :: l) := by
  simp [renderPath, List.intersperse_cons_cons, List.append_assoc]

lemma renderPath_concat_empty : ∀ (p : FsPath), p ≠ [] →
    renderPath (p ++ [[]]) = renderPath p ++ "/".toList := by
  intro p
  induction p with
  | nil => intro h; exact absurd rfl h
  | cons x xs ih =>
    intro _
    cases xs with
    | nil => simp [renderPath, List.intersperse]
    | cons y ys =>
      have ih2 : renderPath (y :: (ys ++ [[]])) = renderPath (y :: ys) ++ "/".toList :=
        ih (by simp)
      show renderPath (x :: y :: (ys ++ [[]])) = renderPath (x :: y :: ys) ++ "/".toList
      rw [renderPath_cons_cons x y (ys ++ [[]]), renderPath_cons_cons x y ys, ih2]
      simp [List.append_assoc]

/-- C10: a filename that is exactly a recognized suffix (here `.tar.gz`)
classifies with an empty base name; the target extraction directory is then
the containing directory with an empty component appended — rendered, the
containing directory's path with a trailing separator, i.e. the containing
directory itself — and in the repair state the orchestrator's first action
recursively deletes exactly that directory. -/
theorem suffix_only_filename_targets_containing_dir (p : FsPath) (a : Archive)
    (hp : p ≠ []) (h : Archive.new (p ++ [".tar.gz".toList]) = some a) :
    a.base_name = [] ∧
    a.extract_dir = some (p ++ [[]]) ∧
    renderPath (p ++ [[]]) = renderPath p ++ "/".toList ∧
    (∀ test pwd entries behavior dEAF, has_valid_files entries = false →
      ∃ pre post, (extract_archive a test pwd false (some entries) behavior dEAF).2 =
        FsAction.removeDirAll (p ++ [[]]) ::
          (pre ++ FsAction.runCommand (a.extract_command test pwd) :: post)) := by
  obtain ⟨hpath, hpt⟩ := archive_new_concat h
  have hsome : parse_type ".tar.gz".toList = some (ArchiveType.TarGz, []) := by decide
  rw [hsome] at hpt
  injection hpt with h2
  injection h2 with hty hbase
  have hb : a.base_name = [] := hbase.symm
  have hdir : a.extract_dir = some (p ++ [[]]) := by
    rw [Archive.extract_dir, hpath, parentDir_concat]
    simp [hb]
  refine ⟨hb, hdir, renderPath_concat_empty p hp, ?_⟩
  intro test pwd entries behavior dEAF hv
  exact repair_trace a test pwd entries behavior dEAF (p ++ [[]]) hdir hv

/-- Witness for C10 at the concrete path `d/.tar.gz`. -/
theorem suffix_only_filename_targets_containing_dir_witness :
    (⟨["d".toList, ".tar.gz".toList], [], ArchiveType.TarGz⟩ : Archive).base_name = [] ∧
    (⟨["d".toList, ".tar.gz".toList], [], ArchiveType.TarGz⟩ : Archive).extract_dir =
      some (["d".toList] ++ [[]]) ∧
    renderPath (["d".toList] ++ [[]]) = renderPath ["d".toList] ++ "/".toList ∧
    (∃ pre post,
      (extract_archive (⟨["d".toList, ".tar.gz".toList], [], ArchiveType.TarGz⟩ : Archive)
        false none false (some [⟨true, 0⟩]) (SpawnBehavior.exits 0) true).2 =
      FsAction.removeDirAll (["d".toList] ++ [[]]) ::
        (pre ++ FsAction.runCommand
          (Archive.extract_command
            (⟨["d".toList, ".tar.gz".toList], [], ArchiveType.TarGz⟩ : Archive)
            false none) :: post)) :=
  have h := suffix_only_filename_targets_containing_dir ["d".toList] _ (by decide) (by decide)
  ⟨h.1, h.2.1, h.2.2.1,
    h.2.2.2 false none [⟨true, 0⟩] (SpawnBehavior.exits 0) true (by decide)⟩

end Un7z
